import Mathlib

/-!
Verification of the audio pipeline of a browser text-to-speech front end.

The source under scrutiny is `src/App.tsx` (helper audio functions `decode`
and `decodeAudioData`, the SSML-building effect, the playback controller
`stopPlayback` / `handleSynthesizeAndPlay`) and
`src/services/geminiService.ts` (`synthesizeSpeech`).

Shallow embedding conventions:
* byte payloads are `List Nat` with entries below 256;
* JavaScript numbers that only ever hold exact values in the program
  (16-bit samples divided by 32768, slider rates that are multiples of
  1/20) are embedded as `ℚ`, on which every operation performed by the
  code is exact;
* fallible operations return `Except`/`Option`;
* external platform calls are given the semantics of the platform
  standards: `ctx.createBuffer(n, len, sr)` first validates its
  arguments — the Web Audio API requires a `NotSupportedError` for a
  zero frame length or a channel count outside the supported range —
  and then allocates `n` zero-filled sample arrays of truncated length
  `len` (the WebIDL `unsigned long` conversion truncates a fractional
  argument); a `Float32Array` write out of range is a no-op (modelled
  by `List.set`, which ignores out-of-range indices); `window.atob`
  performs forgiving base64 decoding.
-/

namespace TTS

/-! ## Transcoder: `decodeAudioData` (src/App.tsx lines 18-35) -/

/-- Reinterpretation of two consecutive bytes (little-endian) as one signed
16-bit sample, as performed by `new Int16Array(data.buffer)`. -/
def toSigned16 (lo hi : Nat) : Int :=
  let u := lo + 256 * hi
  if u < 32768 then (u : Int) else (u : Int) - 65536

/-- The sample sequence seen through the `Int16Array` view: consecutive
little-endian byte pairs.  A trailing odd byte never reaches this function;
`decodeAudioData` rejects odd byte lengths first. -/
def bytesToInt16 : List Nat → List Int
  | lo :: hi :: rest => toSigned16 lo hi :: bytesToInt16 rest
  | _ => []

/-- The result of `ctx.createBuffer` after `decodeAudioData` has filled it:
one float array per channel plus the sample rate. -/
structure JsAudioBuffer where
  sampleRate : Nat
  channels : List (List ℚ)
deriving Repr, DecidableEq

/-- The two failures of `decodeAudioData`: `new Int16Array(data.buffer)`
throws a `RangeError` on an odd byte length (the spec's `FramingError`),
and `ctx.createBuffer` throws a `NotSupportedError` on an invalid channel
count or frame length. -/
inductive AudioError where
  | framingError
  | notSupportedError
deriving Repr, DecidableEq

/-- `dataInt16[j] / 32768.0` for an in-range index `j`.  The code reads
`undefined` (hence produces `NaN`) past the end of the sample array, but
every such read happens at a loop index whose write lands outside the
channel array and is dropped, so the default value below is never stored. -/
def sampleAt (samples : List Int) (j : Nat) : ℚ :=
  ((samples.getD j 0 : Int) : ℚ) / 32768

/-- The inner write loop `for (i = 0; i < frameCount; i++) channelData[i] = f i`
run for `n` iterations over a fixed-length array: out-of-range writes are
dropped, exactly as on a `Float32Array` (`List.set` is a no-op out of range). -/
def writeFrames (f : Nat → ℚ) : Nat → List ℚ → List ℚ
  | 0, arr => arr
  | n + 1, arr => (writeFrames f n arr).set n (f n)

/-- `decodeAudioData(data, ctx, sampleRate, numChannels)` from src/App.tsx:
view the bytes as signed 16-bit samples (fails on an odd byte length),
compute `frameCount = dataInt16.length / numChannels` (a JavaScript float
division: `createBuffer` truncates it to `⌊len/C⌋` while the loop bound
`i < frameCount` runs `⌈len/C⌉` iterations, here `(len + C - 1) / C`),
then de-interleave channel-major samples into per-channel arrays,
normalising by 32768.

`ctx.createBuffer` validation: the Web Audio API requires a
`NotSupportedError` whenever the frame length is zero or the channel
count is zero or beyond the supported range (implementations must
support up to 32 channels, and the major engines all reject more).
Sample-rate validation is not modelled: the program passes only 24000,
inside every conformant implementation's nominal range, and no claim
quantifies over the sample rate. -/
def decodeAudioData (data : List Nat) (sampleRate numChannels : Nat) :
    Except AudioError JsAudioBuffer :=
  if data.length % 2 ≠ 0 then
    .error .framingError
  else
    let dataInt16 := bytesToInt16 data
    let bufLen := dataInt16.length / numChannels
    if numChannels < 1 ∨ 32 < numChannels ∨ bufLen < 1 then
      .error .notSupportedError
    else
      let iters := (dataInt16.length + numChannels - 1) / numChannels
      let channels := (List.range numChannels).map fun channel =>
        writeFrames (fun i => sampleAt dataInt16 (i * numChannels + channel))
          iters (List.replicate bufLen 0)
      .ok { sampleRate := sampleRate, channels := channels }

theorem length_bytesToInt16 (l : List Nat) :
    (bytesToInt16 l).length = l.length / 2 := by
  induction l using bytesToInt16.induct with
  | case1 lo hi rest ih => simp [bytesToInt16, ih]; omega
  | case2 l h => cases l with
    | nil => simp [bytesToInt16]
    | cons x xs =>
      cases xs with
      | nil => simp [bytesToInt16]
      | cons y ys => exact absurd rfl (h x y ys)

theorem length_writeFrames (f : Nat → ℚ) (n : Nat) (arr : List ℚ) :
    (writeFrames f n arr).length = arr.length := by
  induction n with
  | zero => rfl
  | succ n ih => simp [writeFrames, ih]

theorem getElem?_writeFrames (f : Nat → ℚ) (n : Nat) (arr : List ℚ) (i : Nat) :
    (writeFrames f n arr)[i]? =
      if i < n ∧ i < arr.length then some (f i) else arr[i]? := by
  induction n with
  | zero =>
    simp only [writeFrames]
    by_cases h : i < arr.length
    · simp [Nat.not_lt_zero, h]
    · simp [Nat.not_lt_zero, h]
  | succ n ih =>
    simp only [writeFrames]
    by_cases hi : i = n
    · subst hi
      by_cases hlen : i < arr.length
      · rw [List.getElem?_set_self (by rw [length_writeFrames]; omega)]
        simp [hlen]
      · rw [List.set_eq_of_length_le (by rw [length_writeFrames]; omega), ih]
        simp [hlen]
    · rw [List.getElem?_set_ne (by omega), ih]
      by_cases h1 : i < n
      · simp [h1, show i < n + 1 by omega]
      · by_cases h2 : i < n + 1
        · omega
        · simp [h1, h2]

theorem writeFrames_eq_map (f : Nat → ℚ) (n len : Nat) (hle : len ≤ n) :
    writeFrames f n (List.replicate len 0) = (List.range len).map f := by
  apply List.ext_getElem?
  intro i
  rw [getElem?_writeFrames]
  by_cases hi : i < len
  · simp [hi, Nat.lt_of_lt_of_le hi hle]
  · have h1 : (List.replicate (α := ℚ) len 0)[i]? = none := by
      rw [List.getElem?_eq_none]
      simpa using Nat.le_of_not_lt hi
    have h2 : ((List.range len).map f)[i]? = none := by
      rw [List.getElem?_eq_none]
      simpa using Nat.le_of_not_lt hi
    simp [hi, h1, h2]

theorem decodeAudioData_eq (data : List Nat) (sr C : Nat) (hC : 1 ≤ C)
    (h32 : C ≤ 32) (hpos : 1 ≤ data.length / 2 / C)
    (h2 : data.length % 2 = 0) :
    decodeAudioData data sr C =
      Except.ok ⟨sr, (List.range C).map fun c =>
        (List.range (data.length / 2 / C)).map fun i =>
          sampleAt (bytesToInt16 data) (i * C + c)⟩ := by
  have hlen := length_bytesToInt16 data
  have hcond : ¬ (C < 1 ∨ 32 < C ∨ (bytesToInt16 data).length / C < 1) := by
    rw [hlen]
    push_neg
    exact ⟨hC, h32, hpos⟩
  simp only [decodeAudioData, h2, ne_eq, not_true_eq_false, if_false]
  rw [if_neg hcond]
  refine congrArg Except.ok (congrArg (JsAudioBuffer.mk sr) ?_)
  refine congrArg (fun f => List.map f (List.range C)) (funext fun c => ?_)
  rw [writeFrames_eq_map _ _ _ (Nat.div_le_div_right (by omega))]
  rw [hlen]

theorem decodeAudioData_notSupported (data : List Nat) (sr C : Nat)
    (h2 : data.length % 2 = 0)
    (h : C < 1 ∨ 32 < C ∨ data.length / 2 / C < 1) :
    decodeAudioData data sr C = Except.error AudioError.notSupportedError := by
  have hlen := length_bytesToInt16 data
  simp only [decodeAudioData, h2, ne_eq, not_true_eq_false, if_false]
  rw [if_pos (by rw [hlen]; exact h)]

/-- Claim C1 (as frozen) is false of the program: `ctx.createBuffer`
must throw `NotSupportedError` when the truncated frame length is zero,
so a 2-byte payload (one sample) with two channels errors instead of
producing two empty channel arrays, and 66 bytes (33 samples) with 33
channels errors instead of producing 33 one-sample arrays. -/
theorem toAudioBuffer_shape_cex :
    decodeAudioData [0, 64] 24000 2 = Except.error AudioError.notSupportedError ∧
    decodeAudioData (List.replicate 66 0) 24000 33 =
      Except.error AudioError.notSupportedError :=
  ⟨decodeAudioData_notSupported [0, 64] 24000 2 (by decide) (by decide),
   decodeAudioData_notSupported (List.replicate 66 0) 24000 33 (by decide)
     (by decide)⟩

/-- Claim C1, amended: for every even-length byte payload (N 16-bit
samples) and every channel count C in [1, 32] with ⌊N / C⌋ ≥ 1,
`decodeAudioData` succeeds and produces exactly C channel arrays, each
of length ⌊N / C⌋ (fractional remainder samples dropped); when
⌊N / C⌋ = 0, or C exceeds the supported channel range, the buffer
allocation rejects the request with `NotSupportedError` instead. -/
theorem toAudioBuffer_shape (data : List Nat) (C : Nat)
    (h2 : data.length % 2 = 0) :
    (1 ≤ C → C ≤ 32 → 1 ≤ data.length / 2 / C →
      ∃ buf, decodeAudioData data 24000 C = Except.ok buf ∧
        buf.channels.length = C ∧
        ∀ ch ∈ buf.channels, ch.length = data.length / 2 / C) ∧
    (data.length / 2 / C = 0 →
      decodeAudioData data 24000 C = Except.error AudioError.notSupportedError) ∧
    (32 < C →
      decodeAudioData data 24000 C = Except.error AudioError.notSupportedError) := by
  refine ⟨fun hC h32 hpos => ?_, fun h0 => ?_, fun h32 => ?_⟩
  · refine ⟨_, decodeAudioData_eq data 24000 C hC h32 hpos h2, by simp, ?_⟩
    intro ch hch
    simp only [List.mem_map, List.mem_range] at hch
    obtain ⟨c, _, rfl⟩ := hch
    simp
  · refine decodeAudioData_notSupported data 24000 C h2 (Or.inr (Or.inr ?_))
    rw [h0]
    exact Nat.zero_lt_one
  · exact decodeAudioData_notSupported data 24000 C h2 (Or.inr (Or.inl h32))

theorem toAudioBuffer_shape_witness :
    (∃ buf, decodeAudioData [0, 64, 0, 192] 24000 1 = Except.ok buf ∧
      buf.channels.length = 1 ∧ ∀ ch ∈ buf.channels, ch.length = 2) ∧
    decodeAudioData [0, 64, 0, 192] 24000 3 =
      Except.error AudioError.notSupportedError :=
  ⟨(toAudioBuffer_shape [0, 64, 0, 192] 1 (by decide)).1 (by decide) (by decide)
     (by decide),
   (toAudioBuffer_shape [0, 64, 0, 192] 3 (by decide)).2.1 (by decide)⟩

/-- Claim C2 (as frozen) is false of the program for payloads whose
truncated frame count is zero: a 2-byte payload (one sample) with three
channels makes `ctx.createBuffer` throw `NotSupportedError`, so no
decoded output exists at all. -/
theorem toAudioBuffer_values_cex :
    decodeAudioData [0, 64] 24000 3 =
      Except.error AudioError.notSupportedError :=
  decodeAudioData_notSupported [0, 64] 24000 3 (by decide) (by decide)

/-- Claim C2, amended: for every even-length byte payload and channel
count C in [1, 32] whose truncated frame count is at least one, the
decoder de-interleaves channel-major samples with
`output[c][i] = rawSample[i * C + c] / 32768`; payloads with a zero
truncated frame count are rejected by the buffer allocation instead.
In particular the 4-byte payload holding samples 16384 and -16384 at
one channel decodes to the buffer [1/2, -1/2]. -/
theorem toAudioBuffer_values :
    (∀ (data : List Nat) (C : Nat), 1 ≤ C → C ≤ 32 →
      data.length % 2 = 0 → 1 ≤ data.length / 2 / C →
      ∃ buf, decodeAudioData data 24000 C = Except.ok buf ∧
        ∀ c i, c < C → i < data.length / 2 / C →
          (buf.channels.getD c []).getD i 0 =
            ((bytesToInt16 data).getD (i * C + c) 0 : ℚ) / 32768) ∧
    decodeAudioData [0x00, 0x40, 0x00, 0xC0] 24000 1 =
      Except.ok ⟨24000, [[1/2, -1/2]]⟩ := by
  constructor
  · intro data C hC h32 h2 hpos
    refine ⟨_, decodeAudioData_eq data 24000 C hC h32 hpos h2, ?_⟩
    intro c i hc hi
    simp [List.getD_eq_getElem?_getD, List.getElem?_range, hc, hi, sampleAt]
  · rw [decodeAudioData_eq [0x00, 0x40, 0x00, 0xC0] 24000 1 (by norm_num)
      (by norm_num) (by norm_num) (by norm_num)]
    simp [List.range_succ, sampleAt, bytesToInt16, toSigned16]
    norm_num

theorem toAudioBuffer_values_witness :
    ∃ buf, decodeAudioData [0, 64] 24000 1 = Except.ok buf ∧
      ∀ c i, c < 1 → i < 1 →
        (buf.channels.getD c []).getD i 0 =
          ((bytesToInt16 [0, 64]).getD (i * 1 + c) 0 : ℚ) / 32768 :=
  toAudioBuffer_values.1 [0, 64] 1 (by decide) (by decide) (by decide) (by decide)

/-- Claim C3: a payload of odd byte length makes `decodeAudioData` fail with
the framing error (the `Int16Array` view rejects the buffer) instead of
returning a buffer. -/
theorem toAudioBuffer_framing (data : List Nat) (sr C : Nat)
    (h : data.length % 2 = 1) :
    decodeAudioData data sr C = Except.error AudioError.framingError := by
  simp [decodeAudioData, h]

theorem toAudioBuffer_framing_witness :
    decodeAudioData [0] 24000 1 = Except.error AudioError.framingError :=
  toAudioBuffer_framing [0] 24000 1 (by decide)

/-- Claim C4: the claim (and the specification sentence behind it) says
the empty payload decodes to zero frames without error, but the code is
a slip against that intent: the empty payload reaches
`ctx.createBuffer(1, 0, 24000)` with a zero frame length, which the Web
Audio API rejects with `NotSupportedError`, so decoding fails at the
program's configuration (sample rate 24000, one channel). -/
theorem toAudioBuffer_empty :
    decodeAudioData [] 24000 1 = Except.error AudioError.notSupportedError :=
  decodeAudioData_notSupported [] 24000 1 (by decide) (by decide)

/-! ## SSML construction (src/App.tsx lines 104-109)

The effect computes `prosodyRate` from the rate slider, `prosodyPitch` from
the pitch slider, and interpolates both with the text into a template
string.  The rate slider only ever holds multiples of 1/20 in [1/4, 3/2],
on which float arithmetic and rational arithmetic agree after rounding, so
the rate is embedded as `ℚ`. -/

/-- JavaScript `Math.round`: round half toward positive infinity. -/
def mathRound (q : ℚ) : Int := ⌊q + 1 / 2⌋

/-- The SSML string built by the `useEffect` from the text, the speaking
rate and the pitch. -/
def buildSsml (textToSpeak : String) (rate : ℚ) (pitch : Int) : String :=
  let prosodyRate := toString (mathRound (rate * 100)) ++ "%"
  let prosodyPitch := toString pitch ++ "st"
  "<speak><prosody rate=\"" ++ prosodyRate ++ "\" pitch=\"" ++ prosodyPitch ++
    "\">" ++ textToSpeak ++ "</prosody></speak>"

/-- Claim C6: the generated SSML wraps the text in a prosody tag whose
rate attribute is the rounded percentage of the rate and whose pitch
attribute is the signed semitone value suffixed "st"; in particular
rate = 7/10, pitch = -3, text = "Hello" yields exactly
the string given in the specification scenario. -/
theorem ssml_format :
    (∀ (text : String) (rate : ℚ) (pitch : Int),
      buildSsml text rate pitch =
        "<speak><prosody rate=\"" ++ toString (mathRound (rate * 100)) ++
          "%\" pitch=\"" ++ toString pitch ++ "st\">" ++ text ++
          "</prosody></speak>") ∧
    buildSsml "Hello" (7 / 10) (-3) =
      "<speak><prosody rate=\"70%\" pitch=\"-3st\">Hello</prosody></speak>" := by
  constructor
  · intro text rate pitch
    simp [buildSsml, String.append_assoc]
  · have he : (7 / 10 * 100 + 1 / 2 : ℚ) = 141 / 2 := by norm_num
    have hf : ⌊(141 / 2 : ℚ)⌋ = 70 := by
      rw [Int.floor_eq_iff]
      norm_num
    have h70 : mathRound (7 / 10 * 100) = 70 := by
      rw [mathRound, he, hf]
    simp only [buildSsml, h70]
    decide

/-! ## Playback controller (src/App.tsx lines 90-161)

The controller state consists of the React state flags (`isLoading`,
`isPlaying`, `error`) and the two refs.  Playback sessions
(`AudioBufferSourceNode`s) are identified by numbers handed out by a
counter; `active` tracks the sessions that have been started on the audio
device and neither stopped nor finished — the set of audible sessions.
The four events are the externally observable completions of the handlers:
`playOk`/`playErr` are one invocation of `handleSynthesizeAndPlay` whose
awaited synthesis and decode succeed resp. fail (the `isLoading` guard at
entry is checked first; the button is disabled while loading, so no other
handler runs between a handler's first line and its `finally`),
`stopBtn` is one invocation of `stopPlayback`, and `ended` is the
`onended` callback of the current source firing on natural completion. -/

structure Sys where
  isLoading : Bool
  isPlaying : Bool
  audioSource : Option Nat
  error : Option String
  active : List Nat
  nextId : Nat
deriving Repr, DecidableEq

def initState : Sys :=
  { isLoading := false, isPlaying := false, audioSource := none,
    error := none, active := [], nextId := 0 }

/-- `stopPlayback` (lines 111-118): if a source is referenced, stop it
(it ceases to be audible), disconnect, clear the ref and the playing flag;
otherwise do nothing. -/
def stopPlayback (s : Sys) : Sys :=
  match s.audioSource with
  | some id =>
      { s with active := s.active.erase id, audioSource := none,
               isPlaying := false }
  | none => s

inductive Ev where
  | playOk
  | playErr (msg : String)
  | stopBtn
  | ended

/-- One observable transition of the controller.  `playOk` follows
`handleSynthesizeAndPlay` (lines 120-161) on the success path: guard on
`isLoading`, stop any prior playback, set the loading flag and clear the
error, synthesize and decode, start a fresh source, store it in the ref,
set `isPlaying`, and finally clear the loading flag.  `playErr msg`
follows the failure path: the `catch` stores `err.message || '...'` (the
empty message is falsy) and clears `isPlaying`; the ref was already
cleared by the initial `stopPlayback` and no source was started. -/
def step (s : Sys) : Ev → Sys
  | Ev.playOk =>
      if s.isLoading then s
      else
        let s1 := stopPlayback s
        { s1 with isLoading := false, error := none,
                  active := s1.active ++ [s1.nextId],
                  audioSource := some s1.nextId,
                  isPlaying := true,
                  nextId := s1.nextId + 1 }
  | Ev.playErr msg =>
      if s.isLoading then s
      else
        let s1 := stopPlayback s
        { s1 with isLoading := false,
                  error := some (if msg = "" then
                    "An unexpected error occurred." else msg),
                  isPlaying := false }
  | Ev.stopBtn => stopPlayback s
  | Ev.ended =>
      match s.audioSource with
      | some id =>
          { s with active := s.active.erase id, audioSource := none,
                   isPlaying := false }
      | none => s

inductive Reachable : Sys → Prop where
  | init : Reachable initState
  | next : ∀ s ev, Reachable s → Reachable (step s ev)

/-- The controller invariant: no handler is mid-flight in an observable
state, the referenced session is exactly the audible one, and an
unreferenced state has no audible session. -/
def SysInv (s : Sys) : Prop :=
  s.isLoading = false ∧
  (∀ id, s.audioSource = some id → s.active = [id] ∧ s.isPlaying = true) ∧
  (s.audioSource = none → s.active = [])

theorem stopPlayback_audioSource (s : Sys) :
    (stopPlayback s).audioSource = none := by
  cases hs : s.audioSource <;> simp [stopPlayback, hs]

theorem stopPlayback_inv (s : Sys) (h : SysInv s) : SysInv (stopPlayback s) := by
  obtain ⟨hl, hsome, hnone⟩ := h
  cases hs : s.audioSource with
  | none =>
      simp only [stopPlayback, hs]
      exact ⟨hl, hsome, hnone⟩
  | some id =>
      have ha := hsome id hs
      simp [stopPlayback, hs, SysInv, hl, ha.1]

theorem reachable_inv (s : Sys) (h : Reachable s) : SysInv s := by
  induction h with
  | init => exact ⟨rfl, by simp [initState], by simp [initState]⟩
  | next s ev _ ih =>
      obtain ⟨hl, hsome, hnone⟩ := ih
      cases ev with
      | playOk =>
          have h1 := stopPlayback_inv s ⟨hl, hsome, hnone⟩
          have hact : (stopPlayback s).active = [] :=
            h1.2.2 (stopPlayback_audioSource s)
          simp [step, hl, SysInv, hact]
      | playErr msg =>
          have h1 := stopPlayback_inv s ⟨hl, hsome, hnone⟩
          have hact : (stopPlayback s).active = [] :=
            h1.2.2 (stopPlayback_audioSource s)
          simp [step, hl, SysInv, hact, stopPlayback_audioSource s]
      | stopBtn => exact stopPlayback_inv s ⟨hl, hsome, hnone⟩
      | ended =>
          cases hs : s.audioSource with
          | none =>
              simp only [step, hs]
              exact ⟨hl, hsome, hnone⟩
          | some id =>
              have ha := hsome id hs
              simp [step, hs, SysInv, hl, ha.1]

/-- Claim C7: `stopPlayback` is idempotent — from every controller state,
calling it twice leaves the same state as calling it once — and it is a
no-op when no session is referenced, in particular in every reachable
non-playing (idle) state. -/
theorem stopPlayback_idempotent (s : Sys) :
    stopPlayback (stopPlayback s) = stopPlayback s ∧
    (s.audioSource = none → stopPlayback s = s) ∧
    (Reachable s → s.isPlaying = false → stopPlayback s = s) := by
  refine ⟨?_, ?_, ?_⟩
  · cases hs : s.audioSource with
    | none => simp [stopPlayback, hs]
    | some id => simp [stopPlayback, hs]
  · intro h
    simp [stopPlayback, h]
  · intro hr hp
    obtain ⟨_, hsome, _⟩ := reachable_inv s hr
    cases hs : s.audioSource with
    | none => simp [stopPlayback, hs]
    | some id =>
        have := (hsome id hs).2
        rw [hp] at this
        exact absurd this (by simp)

theorem stopPlayback_idempotent_witness :
    stopPlayback (stopPlayback initState) = stopPlayback initState ∧
    stopPlayback initState = initState :=
  ⟨(stopPlayback_idempotent initState).1,
   (stopPlayback_idempotent initState).2.1 rfl⟩

/-- Claim C8: in every reachable state at most one session is audible, the
playing flag and the session reference agree (every transition into idle
clears the reference), and a `play` invocation — also one that finds a live
session, which it stops first — leaves exactly one audible session. -/
theorem playback_mutual_exclusion (s : Sys) (h : Reachable s) :
    s.active.length ≤ 1 ∧
    (∀ id, s.audioSource = some id → s.active = [id]) ∧
    (s.isPlaying = false → s.audioSource = none) ∧
    (step s Ev.playOk).active = [s.nextId] ∧
    (∀ ev, (step s ev).isPlaying = false → (step s ev).audioSource = none) := by
  obtain ⟨hl, hsome, hnone⟩ := reachable_inv s h
  refine ⟨?_, fun id hid => (hsome id hid).1, ?_, ?_, ?_⟩
  · cases hs : s.audioSource with
    | none => simp [hnone hs]
    | some id => simp [(hsome id hs).1]
  · intro hp
    cases hs : s.audioSource with
    | none => rfl
    | some id =>
        have := (hsome id hs).2
        rw [hp] at this
        exact absurd this (by simp)
  · have hact : (stopPlayback s).active = [] :=
      (stopPlayback_inv s ⟨hl, hsome, hnone⟩).2.2 (stopPlayback_audioSource s)
    have hid : (stopPlayback s).nextId = s.nextId := by
      cases hs : s.audioSource <;> simp [stopPlayback, hs]
    simp [step, hl, hact, hid]
  · intro ev hp
    obtain ⟨_, hsome1, _⟩ := reachable_inv (step s ev) (Reachable.next s ev h)
    cases hs : (step s ev).audioSource with
    | none => rfl
    | some id =>
        have := (hsome1 id hs).2
        rw [hp] at this
        exact absurd this (by simp)

theorem playback_mutual_exclusion_witness :
    initState.active.length ≤ 1 ∧
    (∀ id, initState.audioSource = some id → initState.active = [id]) ∧
    (initState.isPlaying = false → initState.audioSource = none) ∧
    (step initState Ev.playOk).active = [initState.nextId] ∧
    (∀ ev, (step initState ev).isPlaying = false →
      (step initState ev).audioSource = none) :=
  playback_mutual_exclusion initState Reachable.init

/-- Claim C9: after a failed synthesize-and-play attempt the controller is
idle (not playing, not loading), the session reference is cleared, the
failure is surfaced as a user-visible error message, and a subsequent
successful request still starts playback (the system remains usable; the
step function contains no retry). -/
theorem failure_returns_idle (s : Sys) (msg : String)
    (h : s.isLoading = false) :
    (step s (Ev.playErr msg)).isPlaying = false ∧
    (step s (Ev.playErr msg)).isLoading = false ∧
    (step s (Ev.playErr msg)).audioSource = none ∧
    (step s (Ev.playErr msg)).error.isSome = true ∧
    (step (step s (Ev.playErr msg)) Ev.playOk).isPlaying = true := by
  refine ⟨by simp [step, h], by simp [step, h], ?_, ?_, ?_⟩
  · simp [step, h, stopPlayback_audioSource s]
  · by_cases hm : msg = "" <;> simp [step, h, hm]
  · simp [step, h]

theorem failure_returns_idle_witness :
    (step initState (Ev.playErr "network down")).isPlaying = false ∧
    (step initState (Ev.playErr "network down")).isLoading = false ∧
    (step initState (Ev.playErr "network down")).audioSource = none ∧
    (step initState (Ev.playErr "network down")).error.isSome = true ∧
    (step (step initState (Ev.playErr "network down")) Ev.playOk).isPlaying
      = true :=
  failure_returns_idle initState "network down" rfl

/-! ## Upstream synthesis call (src/services/geminiService.ts lines 5-35)

`synthesizeSpeech` awaits the generative-AI client and extracts
`response.candidates?.[0]?.content?.parts?.[0]?.inlineData?.data`.  The
outcome of the awaited call is embedded as `Upstream`: the optional
chain's result on a resolved response (`none` models any absent link,
`some ""` an empty data field — both falsy in the `if (!base64Audio)`
test), a rejection with an `Error` carrying a message, or a rejection
with a non-`Error` value.  The inner `throw new Error("API did not
return audio data.")` is caught by the function's own `catch`, which
re-throws every `Error` with the "Failed to synthesize speech: " prefix. -/

inductive Upstream where
  | ok (data : Option String)
  | errE (msg : String)
  | errOther

/-- `synthesizeSpeech` as a function of the upstream outcome: the returned
base64 string or the message of the thrown `Error`. -/
def synthesizeSpeech : Upstream → Except String String
  | Upstream.ok none =>
      Except.error "Failed to synthesize speech: API did not return audio data."
  | Upstream.ok (some s) =>
      if s = "" then
        Except.error "Failed to synthesize speech: API did not return audio data."
      else Except.ok s
  | Upstream.errE m => Except.error ("Failed to synthesize speech: " ++ m)
  | Upstream.errOther =>
      Except.error "An unknown error occurred during speech synthesis."

/-- Claim C10: `synthesizeSpeech` never resolves with an empty payload —
for every upstream outcome it returns a non-empty string or throws — and
an absent or empty audio data field becomes a thrown error whose message
carries the "Failed to synthesize speech: " prefix. -/
theorem synthesizeSpeech_nonempty :
    (∀ u, (∃ s, synthesizeSpeech u = Except.ok s ∧ s ≠ "") ∨
      ∃ m, synthesizeSpeech u = Except.error m) ∧
    synthesizeSpeech (Upstream.ok none) =
      Except.error ("Failed to synthesize speech: " ++
        "API did not return audio data.") ∧
    synthesizeSpeech (Upstream.ok (some "")) =
      Except.error ("Failed to synthesize speech: " ++
        "API did not return audio data.") := by
  refine ⟨?_, rfl, rfl⟩
  intro u
  match u with
  | Upstream.ok none => exact Or.inr ⟨_, rfl⟩
  | Upstream.ok (some s) =>
      by_cases hs : s = ""
      · subst hs
        exact Or.inr ⟨_, rfl⟩
      · exact Or.inl ⟨s, by simp [synthesizeSpeech, hs], hs⟩
  | Upstream.errE m => exact Or.inr ⟨_, rfl⟩
  | Upstream.errOther => exact Or.inr ⟨_, rfl⟩

/-! ## decode (src/App.tsx lines 8-16)

`decode` calls `window.atob` and copies the character codes of the
returned binary string into a byte array.  `window.atob` performs the
forgiving-base64 decode of the WHATWG Infra standard: strip ASCII
whitespace; if the length is a multiple of four, strip up to two
trailing padding characters; reject a length congruent to 1 mod 4;
reject any character outside the 64-character alphabet; convert each
character to its 6-bit value and emit a byte for every 8 accumulated
bits, discarding leftover bits.  The model below returns the byte codes
directly; the `charCodeAt` loop of `decode` is the identity on them. -/

def b64Alphabet : List Char :=
  ['A', 'B', 'C', 'D', 'E', 'F', 'G', 'H', 'I', 'J', 'K', 'L', 'M',
   'N', 'O', 'P', 'Q', 'R', 'S', 'T', 'U', 'V', 'W', 'X', 'Y', 'Z',
   'a', 'b', 'c', 'd', 'e', 'f', 'g', 'h', 'i', 'j', 'k', 'l', 'm',
   'n', 'o', 'p', 'q', 'r', 's', 't', 'u', 'v', 'w', 'x', 'y', 'z',
   '0', '1', '2', '3', '4', '5', '6', '7', '8', '9', '+', '/']

/-- The 6-bit value of a base64 digit; `none` for a character outside
the alphabet. -/
def b64Index (c : Char) : Option Nat := b64Alphabet.indexOf? c

/-- ASCII whitespace, the class removed by forgiving-base64 decoding. -/
def isSpaceChar (c : Char) : Bool :=
  c = ' ' || c = '\t' || c = '\n' || c = '\x0c' || c = '\r'

/-- Strip up to two trailing padding characters. -/
def dropTrailingEq (l : List Char) : List Char :=
  if l.getLast? = some '=' then
    if l.dropLast.getLast? = some '=' then l.dropLast.dropLast else l.dropLast
  else l

/-- Look up every character's 6-bit value, failing on the first invalid
character. -/
def mapIndices : List Char → Option (List Nat)
  | [] => some []
  | c :: rest =>
      match b64Index c, mapIndices rest with
      | some v, some vs => some (v :: vs)
      | _, _ => none

/-- Reassemble bytes from 6-bit values: every full group of four values
yields three bytes; a final group of three yields two bytes, of two one
byte; leftover bits are discarded. -/
def sextetsToBytes : List Nat → List Nat
  | a :: b :: c :: d :: rest =>
      (a * 4 + b / 16) :: ((b % 16) * 16 + c / 4) :: ((c % 4) * 64 + d) ::
        sextetsToBytes rest
  | [a, b] => [a * 4 + b / 16]
  | [a, b, c] => [a * 4 + b / 16, (b % 16) * 16 + c / 4]
  | _ => []

/-- `window.atob` (forgiving-base64 decode), returning the byte codes of
the binary string. -/
def atob (s : List Char) : Option (List Nat) :=
  let t1 := s.filter (fun c => !isSpaceChar c)
  let t2 := if t1.length % 4 = 0 then dropTrailingEq t1 else t1
  if t2.length % 4 = 1 then none
  else (mapIndices t2).map sextetsToBytes

/-- `decode` (lines 8-16): `window.atob` followed by the `charCodeAt`
copy loop, which is the identity on the byte codes above. -/
def decode (base64 : List Char) : Option (List Nat) := atob base64

/-! Reference encoder, following the specification's words "standard
base64 decoding": a string is valid base64 exactly when it is the
standard (RFC 4648, padded) encoding of some byte sequence. -/

def b64Char (n : Nat) : Char := b64Alphabet.getD n 'A'

/-- Standard padded base64 encoding of a byte sequence. -/
def b64Encode : List Nat → List Char
  | x :: y :: z :: rest =>
      b64Char (x / 4) :: b64Char ((x % 4) * 16 + y / 16) ::
        b64Char ((y % 16) * 4 + z / 64) :: b64Char (z % 64) :: b64Encode rest
  | [x, y] =>
      [b64Char (x / 4), b64Char ((x % 4) * 16 + y / 16),
       b64Char ((y % 16) * 4), '=']
  | [x] => [b64Char (x / 4), b64Char ((x % 4) * 16), '=', '=']
  | [] => []

/-- The unpadded 6-bit values of a byte sequence. -/
def toSextets : List Nat → List Nat
  | x :: y :: z :: rest =>
      x / 4 :: ((x % 4) * 16 + y / 16) :: ((y % 16) * 4 + z / 64) ::
        (z % 64) :: toSextets rest
  | [x, y] => [x / 4, (x % 4) * 16 + y / 16, (y % 16) * 4]
  | [x] => [x / 4, (x % 4) * 16]
  | [] => []

theorem b64Char_mem_or_default (n : Nat) :
    b64Char n ∈ b64Alphabet ∨ b64Char n = 'A' := by
  rw [b64Char, List.getD_eq_getElem?_getD]
  cases h : b64Alphabet[n]? with
  | none => simp
  | some c => simp [List.getElem?_mem h]

theorem isSpaceChar_b64Char (n : Nat) : isSpaceChar (b64Char n) = false := by
  have hall : ∀ c ∈ b64Alphabet, isSpaceChar c = false := by decide
  rcases b64Char_mem_or_default n with h | h
  · exact hall _ h
  · rw [h]
    decide

theorem b64Char_ne_pad (n : Nat) : b64Char n ≠ '=' := by
  have hall : ∀ c ∈ b64Alphabet, c ≠ '=' := by decide
  rcases b64Char_mem_or_default n with h | h
  · exact hall _ h
  · rw [h]
    decide

theorem mem_b64Encode_not_space (bytes : List Nat) :
    ∀ c ∈ b64Encode bytes, isSpaceChar c = false := by
  induction bytes using b64Encode.induct with
  | case1 x y z rest ih =>
      intro c hc
      simp only [b64Encode, List.mem_cons] at hc
      rcases hc with rfl | rfl | rfl | rfl | hc
      · exact isSpaceChar_b64Char _
      · exact isSpaceChar_b64Char _
      · exact isSpaceChar_b64Char _
      · exact isSpaceChar_b64Char _
      · exact ih c hc
  | case2 x y =>
      intro c hc
      simp only [b64Encode, List.mem_cons] at hc
      rcases hc with rfl | rfl | rfl | rfl | hc
      · exact isSpaceChar_b64Char _
      · exact isSpaceChar_b64Char _
      · exact isSpaceChar_b64Char _
      · decide
      · simp at hc
  | case3 x =>
      intro c hc
      simp only [b64Encode, List.mem_cons] at hc
      rcases hc with rfl | rfl | rfl | rfl | hc
      · exact isSpaceChar_b64Char _
      · exact isSpaceChar_b64Char _
      · decide
      · decide
      · simp at hc
  | case4 => intro c hc; simp [b64Encode] at hc

theorem filter_b64Encode (bytes : List Nat) :
    (b64Encode bytes).filter (fun c => !isSpaceChar c) = b64Encode bytes := by
  rw [List.filter_eq_self]
  intro c hc
  simp [mem_b64Encode_not_space bytes c hc]

theorem length_b64Encode_mod (bytes : List Nat) :
    (b64Encode bytes).length % 4 = 0 := by
  induction bytes using b64Encode.induct with
  | case1 x y z rest ih =>
      simp only [b64Encode, List.length_cons]
      omega
  | case2 x y => simp [b64Encode]
  | case3 x => simp [b64Encode]
  | case4 => simp [b64Encode]

theorem length_b64Encode_pos (bytes : List Nat) (h : bytes ≠ []) :
    4 ≤ (b64Encode bytes).length := by
  induction bytes using b64Encode.induct with
  | case1 x y z rest ih =>
      simp only [b64Encode, List.length_cons]
      omega
  | case2 x y => simp [b64Encode]
  | case3 x => simp [b64Encode]
  | case4 => exact absurd rfl h

theorem dropTrailingEq_append (l t : List Char) (h4 : 2 ≤ t.length) :
    dropTrailingEq (l ++ t) = l ++ dropTrailingEq t := by
  have ht : t ≠ [] := by
    intro h0
    rw [h0] at h4
    simp at h4
  have ht' : t.dropLast ≠ [] := by
    have := List.length_dropLast t
    intro h0
    rw [h0] at this
    simp at this
    omega
  rw [dropTrailingEq, dropTrailingEq,
    List.getLast?_append_of_ne_nil _ ht,
    List.dropLast_append_of_ne_nil _ ht,
    List.getLast?_append_of_ne_nil _ ht',
    List.dropLast_append_of_ne_nil _ ht']
  split_ifs with h1 h2
  · rfl
  · rfl
  · rfl

theorem dropTrailingEq_b64Encode (bytes : List Nat) :
    dropTrailingEq (b64Encode bytes) = (toSextets bytes).map b64Char := by
  induction bytes using b64Encode.induct with
  | case1 x y z rest ih =>
      by_cases hr : rest = []
      · subst hr
        show dropTrailingEq ([b64Char (x / 4), b64Char ((x % 4) * 16 + y / 16),
          b64Char ((y % 16) * 4 + z / 64)] ++ [b64Char (z % 64)]) = _
        rw [dropTrailingEq, List.getLast?_concat]
        simp [b64Char_ne_pad, toSextets, b64Encode]
      · show dropTrailingEq ([b64Char (x / 4), b64Char ((x % 4) * 16 + y / 16),
          b64Char ((y % 16) * 4 + z / 64), b64Char (z % 64)] ++ b64Encode rest) = _
        rw [dropTrailingEq_append _ _
          (le_trans (by omega) (length_b64Encode_pos rest hr)), ih]
        simp [toSextets]
  | case2 x y =>
      show dropTrailingEq (([b64Char (x / 4), b64Char ((x % 4) * 16 + y / 16)] ++
        [b64Char ((y % 16) * 4)]) ++ ['=']) = _
      rw [dropTrailingEq, List.getLast?_concat, List.dropLast_concat,
        List.getLast?_concat]
      simp [b64Char_ne_pad, toSextets]
  | case3 x =>
      show dropTrailingEq (([b64Char (x / 4), b64Char ((x % 4) * 16)] ++ ['=']) ++
        ['=']) = _
      rw [dropTrailingEq, List.getLast?_concat, List.dropLast_concat,
        List.getLast?_concat, List.dropLast_concat]
      simp [toSextets]
  | case4 => rfl

theorem length_toSextets_mod (bytes : List Nat) :
    (toSextets bytes).length % 4 ≠ 1 := by
  induction bytes using toSextets.induct with
  | case1 x y z rest ih =>
      simp only [toSextets, List.length_cons]
      omega
  | case2 x y => simp [toSextets]
  | case3 x => simp [toSextets]
  | case4 => simp [toSextets]

theorem toSextets_lt64 (bytes : List Nat) (hb : ∀ b ∈ bytes, b < 256) :
    ∀ v ∈ toSextets bytes, v < 64 := by
  induction bytes using toSextets.induct with
  | case1 x y z rest ih =>
      have hx : x < 256 := hb x (by simp)
      have hy : y < 256 := hb y (by simp)
      have hz : z < 256 := hb z (by simp)
      intro v hv
      simp only [toSextets, List.mem_cons] at hv
      rcases hv with rfl | rfl | rfl | rfl | hv
      · omega
      · omega
      · omega
      · omega
      · exact ih (fun b h => hb b (by simp [h])) v hv
  | case2 x y =>
      have hx : x < 256 := hb x (by simp)
      have hy : y < 256 := hb y (by simp)
      intro v hv
      simp only [toSextets, List.mem_cons] at hv
      rcases hv with rfl | rfl | rfl | hv
      · omega
      · omega
      · omega
      · simp at hv
  | case3 x =>
      have hx : x < 256 := hb x (by simp)
      intro v hv
      simp only [toSextets, List.mem_cons] at hv
      rcases hv with rfl | rfl | hv
      · omega
      · omega
      · simp at hv
  | case4 => intro v hv; simp [toSextets] at hv

theorem b64Index_b64Char : ∀ v, v < 64 → b64Index (b64Char v) = some v := by
  decide

theorem mapIndices_map_b64Char (l : List Nat) (hl : ∀ v ∈ l, v < 64) :
    mapIndices (l.map b64Char) = some l := by
  induction l with
  | nil => rfl
  | cons v rest ih =>
      simp only [List.map_cons, mapIndices]
      rw [b64Index_b64Char v (hl v (by simp)), ih (fun w h => hl w (by simp [h]))]

theorem mapIndices_none (l : List Char) (c : Char) (hc : c ∈ l)
    (hidx : b64Index c = none) : mapIndices l = none := by
  induction l with
  | nil => simp at hc
  | cons d rest ih =>
      rcases List.mem_cons.mp hc with rfl | hc'
      · simp only [mapIndices, hidx]
      · rw [mapIndices, ih hc']
        cases b64Index d <;> rfl

theorem sextetsToBytes_toSextets (bytes : List Nat) (hb : ∀ b ∈ bytes, b < 256) :
    sextetsToBytes (toSextets bytes) = bytes := by
  induction bytes using toSextets.induct with
  | case1 x y z rest ih =>
      have hx : x < 256 := hb x (by simp)
      have hy : y < 256 := hb y (by simp)
      have hz : z < 256 := hb z (by simp)
      simp only [toSextets, sextetsToBytes]
      rw [ih (fun b h => hb b (by simp [h]))]
      have e1 : (x / 4) * 4 + ((x % 4) * 16 + y / 16) / 16 = x := by omega
      have e2 : (((x % 4) * 16 + y / 16) % 16) * 16 +
          ((y % 16) * 4 + z / 64) / 4 = y := by omega
      have e3 : (((y % 16) * 4 + z / 64) % 4) * 64 + z % 64 = z := by omega
      rw [e1, e2, e3]
  | case2 x y =>
      have hx : x < 256 := hb x (by simp)
      have hy : y < 256 := hb y (by simp)
      simp only [toSextets, sextetsToBytes]
      have e1 : (x / 4) * 4 + ((x % 4) * 16 + y / 16) / 16 = x := by omega
      have e2 : (((x % 4) * 16 + y / 16) % 16) * 16 + ((y % 16) * 4) / 4 = y := by
        omega
      rw [e1, e2]
  | case3 x =>
      have hx : x < 256 := hb x (by simp)
      simp only [toSextets, sextetsToBytes]
      have e1 : (x / 4) * 4 + ((x % 4) * 16) / 16 = x := by omega
      rw [e1]
  | case4 => rfl

theorem mem_dropLast_of_last_pad (l : List Char) (c : Char) (hc : c ∈ l)
    (hne : c ≠ '=') (h : l.getLast? = some '=') : c ∈ l.dropLast := by
  have hnil : l ≠ [] := by
    intro h0
    rw [h0] at h
    simp at h
  have hgl : l.getLast hnil = '=' := by
    rw [List.getLast?_eq_getLast l hnil] at h
    exact Option.some.inj h
  have heq : l.dropLast ++ [l.getLast hnil] = l :=
    List.dropLast_concat_getLast hnil
  rw [← heq] at hc
  rcases List.mem_append.mp hc with h' | h'
  · exact h'
  · rw [hgl] at h'
    simp at h'
    exact absurd h' hne

theorem mem_dropTrailingEq (l : List Char) (c : Char) (hc : c ∈ l)
    (hne : c ≠ '=') : c ∈ dropTrailingEq l := by
  rw [dropTrailingEq]
  split_ifs with h1 h2
  · exact mem_dropLast_of_last_pad _ c
      (mem_dropLast_of_last_pad l c hc hne h1) hne h2
  · exact mem_dropLast_of_last_pad l c hc hne h1
  · exact hc

theorem atob_tail_none (t : List Char) (c : Char) (hct : c ∈ t)
    (hidx : b64Index c = none) :
    (if t.length % 4 = 1 then none
     else (mapIndices t).map sextetsToBytes) = none := by
  by_cases h : t.length % 4 = 1
  · simp [h]
  · simp [h, mapIndices_none t c hct hidx]

/-- Claim C5: `decode` performs standard base64 decoding.  Decoding the
standard (padded) base64 encoding of any byte sequence returns exactly
that byte sequence, and any input containing a character that is invalid
for base64 — outside the 64-character alphabet, not padding, and not
whitespace (which `window.atob` strips) — makes `decode` fail. -/
theorem decode_base64 :
    (∀ bytes : List Nat, (∀ b ∈ bytes, b < 256) →
      decode (b64Encode bytes) = some bytes) ∧
    (∀ (s : List Char) (c : Char), c ∈ s → b64Index c = none → c ≠ '=' →
      isSpaceChar c = false → decode s = none) := by
  constructor
  · intro bytes hb
    rw [decode, atob]
    simp only [filter_b64Encode, length_b64Encode_mod, if_true,
      dropTrailingEq_b64Encode]
    rw [if_neg (by simpa using length_toSextets_mod bytes)]
    rw [mapIndices_map_b64Char _ (toSextets_lt64 bytes hb)]
    simp [sextetsToBytes_toSextets bytes hb]
  · intro s c hc hidx hne hsp
    rw [decode, atob]
    have hct1 : c ∈ s.filter (fun c => !isSpaceChar c) :=
      List.mem_filter.mpr ⟨hc, by simp [hsp]⟩
    by_cases h0 : (s.filter (fun c => !isSpaceChar c)).length % 4 = 0
    · simp only [h0, if_true]
      exact atob_tail_none _ c (mem_dropTrailingEq _ c hct1 hne) hidx
    · simp only [h0, if_false]
      exact atob_tail_none _ c hct1 hidx

theorem decode_base64_witness :
    decode (b64Encode [0, 64, 255]) = some [0, 64, 255] ∧
    decode ['A', 'B', '!', 'C'] = none :=
  ⟨decode_base64.1 [0, 64, 255] (by decide),
   decode_base64.2 ['A', 'B', '!', 'C'] '!' (by decide) (by decide)
     (by decide) (by decide)⟩
